import Mathlib

/-
Verification of the HTML preview-processing pipeline (src/utils/htmlUtils.ts) and the
photo gallery manager (src/hooks/usePhotoGallery.ts) of the CS5513-Week16 repository.

The markup utilities of the source operate on browser DOM trees obtained by assigning
innerHTML; the embedding works directly on a tree type of text nodes and elements, with
an explicit serializer standing for innerHTML read-back. JavaScript string behavior the
source relies on (trim, split on whitespace runs yielding a singleton empty string for
blank input, lastIndexOf) is modelled on the character list of a string. JS measures
string length in UTF-16 code units; the model measures code points, which agrees on all
inputs considered here.
-/

/-! ## JavaScript string primitives -/

/-- Whitespace as the regular expression class backslash-s of the source matches it, on
the character set exercised here: space, tab, newline, carriage return. -/
def isJsSpace (c : Char) : Bool := c = ' ' || c = '\t' || c = '\n' || c = '\r'

/-- Characters of a string after JS String.prototype.trim: leading and trailing
whitespace removed. -/
def trimChars (l : List Char) : List Char :=
  ((l.dropWhile isJsSpace).reverse.dropWhile isJsSpace).reverse

/-- JS String.prototype.trim on a string. -/
def jsTrim (s : String) : String := ⟨trimChars s.data⟩

/-- Maximal runs of non-whitespace characters, accumulator-passing helper. -/
def splitWsAux : List Char → List Char → List String
  | [], acc => if acc.isEmpty then [] else [⟨acc.reverse⟩]
  | c :: rest, acc =>
    if isJsSpace c then
      if acc.isEmpty then splitWsAux rest [] else ⟨acc.reverse⟩ :: splitWsAux rest []
    else splitWsAux rest (c :: acc)

/-- Maximal non-whitespace runs of a string, in order. -/
def wsTokens (s : String) : List String := splitWsAux s.data []

/-- Plain-text word count as the spec means it: the number of whitespace-separated
words, zero for a blank string. -/
def wordCount (s : String) : Nat := (wsTokens s).length

/-- Model of the word-list computation of the source, plainText.trim followed by split
on runs of whitespace: JS split yields a singleton list holding the empty string when
the trimmed input is empty. -/
def jsTrimSplitWs (s : String) : List String :=
  let t := jsTrim s
  if t.data.isEmpty then [""] else wsTokens t

/-- Index of the last occurrence of a character, none when absent (JS lastIndexOf
returns -1 there). -/
def lastIdxOfAux (c : Char) : List Char → Option Nat
  | [] => none
  | x :: xs =>
    match lastIdxOfAux c xs with
    | some i => some (i + 1)
    | none => if x = c then some 0 else none

/-- JS Array.prototype.join with a single space, as used to measure the target
character length of the kept words. -/
def joinWithSpace : List String → String
  | [] => ""
  | [w] => w
  | w :: ws => w ++ " " ++ joinWithSpace ws

/-! ## The DOM fragment embedding -/

/-- Shallow embedding of the DOM forests the utilities of src/utils/htmlUtils.ts
operate on: a fragment is a list of nodes, each node a text node or an element carrying
a tag, an attribute list and child nodes. Tag and attribute names are taken lower-case,
as the browser parser normalizes them. Comment nodes do not occur in the fragments of
interest and are omitted. -/
inductive Node where
  | text : String → Node
  | elem : String → List (String × String) → List Node → Node

/-- An HTML fragment: the forest a div wrapper holds after an innerHTML assignment. -/
abbrev Html := List Node

mutual
/-- Text content of a single node, as the DOM textContent getter yields it. -/
def textContentN : Node → String
  | .text s => s
  | .elem _ _ cs => textContentF cs

/-- Concatenated text content of a fragment. -/
def textContentF : List Node → String
  | [] => ""
  | n :: ns => textContentN n ++ textContentF ns
end

/-- Serialization of one text character as innerHTML read-back escapes it. -/
def escTextChar (c : Char) : List Char :=
  if c = '&' then "&amp;".data
  else if c = '<' then "&lt;".data
  else if c = '>' then "&gt;".data
  else [c]

/-- Serialization of text-node data. -/
def escText (s : String) : String := ⟨s.data.foldr (fun c r => escTextChar c ++ r) []⟩

/-- Serialization of one attribute-value character. -/
def escAttrChar (c : Char) : List Char :=
  if c = '&' then "&amp;".data
  else if c = '"' then "&quot;".data
  else [c]

/-- Serialization of an attribute value. -/
def escAttr (s : String) : String := ⟨s.data.foldr (fun c r => escAttrChar c ++ r) []⟩

/-- Serialization of an attribute list. -/
def renderAttrs : List (String × String) → String
  | [] => ""
  | (n, v) :: rest => " " ++ n ++ "=\"" ++ escAttr v ++ "\"" ++ renderAttrs rest

/-- Tags serialized without a closing tag among the allow-listed ones. -/
def VOID_TAGS : List String := ["br", "hr"]

mutual
/-- Serialization of a node, standing for the innerHTML read-back of the source. -/
def renderN : Node → String
  | .text s => escText s
  | .elem t attrs cs =>
    if VOID_TAGS.contains t then "<" ++ t ++ renderAttrs attrs ++ ">"
    else "<" ++ t ++ renderAttrs attrs ++ ">" ++ renderF cs ++ "</" ++ t ++ ">"

/-- Serialization of a fragment. -/
def renderF : List Node → String
  | [] => ""
  | n :: ns => renderN n ++ renderF ns
end

/-- Emptiness of the string a fragment serializes to; this models the falsy-string
guards of the source, which receive the serialized markup. -/
def renderEmpty (frag : Html) : Bool := (renderF frag).data.isEmpty

/-! ## Link neutralizer (removeHrefAttributes, src/utils/htmlUtils.ts:141) -/

/-- Attributes the source removes from every anchor element. -/
def NAV_ATTRS : List String := ["href", "target", "rel"]

mutual
/-- Per-node mutation of removeHrefAttributes: querySelectorAll reaches every anchor,
nested ones included, and removeAttribute drops href, target and rel on each; all
other nodes are untouched. -/
def stripLinksN : Node → Node
  | .text s => .text s
  | .elem t attrs cs =>
    .elem t (if t = "a" then attrs.filter (fun p => !(NAV_ATTRS.contains p.1)) else attrs)
      (stripLinksF cs)

/-- Fragment-level walk of the anchor mutation. -/
def stripLinksF : List Node → List Node
  | [] => []
  | n :: ns => stripLinksN n :: stripLinksF ns
end

/-- Model of removeHrefAttributes: a falsy input string yields the empty string,
otherwise the parsed fragment loses the navigation attributes of every anchor and is
re-serialized. -/
def removeHrefAttributes (frag : Html) : Html :=
  if renderEmpty frag then [] else stripLinksF frag

/-! ## Sanitizer (sanitizeHTML, src/utils/htmlUtils.ts:21) -/

/-- ALLOWED_TAGS list passed to the sanitizer (src/utils/htmlUtils.ts:24). -/
def ALLOWED_TAGS : List String :=
  ["a", "p", "strong", "em", "u", "br", "span", "div", "ul", "ol", "li", "hr", "code",
   "pre"]

/-- ALLOWED_ATTR list passed to the sanitizer (src/utils/htmlUtils.ts:25). -/
def ALLOWED_ATTR : List String := ["href", "target", "rel"]

/-- Modelled from the spec: the tags a sanitizer must drop together with their whole
subtree so that script execution vectors are neutralized. The spec states the hard
security invariant in section 4.1 and its scenario in section 8 requires the body of a
script element not to survive as text. -/
def DROP_CONTENT_TAGS : List String := ["script", "style"]

/-- Ascii lower-casing of an attribute value, character by character. -/
def lowerChars (l : List Char) : List Char := l.map Char.toLower

/-- Prefix test on character lists. -/
def startsWithChars : List Char → List Char → Bool
  | [], _ => true
  | _ :: _, [] => false
  | a :: as, b :: bs => a = b && startsWithChars as bs

/-- Modelled from the spec: the neutralization of a javascript: URI in an href value.
The attribute is dropped when the trimmed, lower-cased value starts with the
javascript scheme. -/
def isJavascriptUri (v : String) : Bool :=
  startsWithChars "javascript:".data (lowerChars (trimChars v.data))

/-- Modelled from the spec: the attribute filter of the sanitizer. Per the words of
section 4.1 the attribute allow-list (href, target, rel) applies on anchors, and an
href holding a javascript: URI is neutralized by dropping the attribute. -/
def keepAttr (tag : String) (a : String × String) : Bool :=
  tag == "a" && ALLOWED_ATTR.contains a.1 && !(a.1 == "href" && isJavascriptUri a.2)

mutual
/-- Modelled from the spec: the external DOMPurify.sanitize call of sanitizeHTML with
the configuration of the source. The library source is not part of this repository;
following section 4.1 of the spec, an allow-listed element is kept with filtered
attributes and sanitized children, a script-execution vector is dropped with its whole
subtree, and any other element is removed while its sanitized children stay in place,
preserving their text. -/
def sanitizeN : Node → List Node
  | .text s => [.text s]
  | .elem t attrs cs =>
    if ALLOWED_TAGS.contains t then [.elem t (attrs.filter (keepAttr t)) (sanitizeF cs)]
    else if DROP_CONTENT_TAGS.contains t then []
    else sanitizeF cs

/-- Fragment-level walk of the sanitizer. -/
def sanitizeF : List Node → List Node
  | [] => []
  | n :: ns => sanitizeN n ++ sanitizeF ns
end

/-- Model of sanitizeHTML: empty input yields empty output, otherwise the sanitizer
model above runs over the parsed fragment. -/
def sanitizeHTML (frag : Html) : Html :=
  if renderEmpty frag then [] else sanitizeF frag

/-! ## Word counting over markup (src/utils/htmlUtils.ts:34 and 128) -/

/-- Model of stripHTMLTags: the text content of the parsed fragment, empty string for
a falsy input. -/
def stripHTMLTags (frag : Html) : String :=
  if renderEmpty frag then "" else textContentF frag

/-- Model of exceedsWordCount: false on a falsy input, otherwise the comparison of the
JS word-list length against the limit. The JS split artifact is inherited: a nonempty
fragment whose text is blank yields the word list [""] of length one. -/
def exceedsWordCount (frag : Html) (wordLimit : Nat) : Bool :=
  if renderEmpty frag then false
  else decide (wordLimit < (jsTrimSplitWs (stripHTMLTags frag)).length)

/-! ## Word-bounded truncation (truncateHTMLToWords, src/utils/htmlUtils.ts:48) -/

/-- Walker state of the truncation walk: scanning carries currentTextLength before the
truncation point is reached; cleared is the phase after it, in which every further
text node is emptied, and its flag carries the pending prune request walking up from
the truncated node (true while every enclosing element so far was removed for lack of
a non-blank direct text child). -/
inductive TruncState where
  | scanning : Nat → TruncState
  | cleared : Bool → TruncState

/-- Truncation point inside one text node (src/utils/htmlUtils.ts:82-88): the
substring up to truncateAt, the last index of a space character in it, and the JS
guard lastSpaceIndex greater than zero, under which both an absent space (index -1)
and a space at index zero fall back to the raw offset, splitting mid-word there. -/
def truncTextAt (s : String) (truncAt : Nat) : String :=
  let tb := s.data.take truncAt
  let fin := match lastIdxOfAux ' ' tb with
    | some i => if 0 < i then i else truncAt
    | none => truncAt
  ⟨s.data.take fin⟩

/-- Prune test of src/utils/htmlUtils.ts:100-103: some direct child is a text node
with non-blank content. -/
def hasNonblankDirectText (cs : List Node) : Bool :=
  cs.any (fun n => match n with
    | .text s => !(trimChars s.data).isEmpty
    | .elem _ _ _ => false)

mutual
/-- Truncation walk over one node. In scanning state a text node either accumulates
its length or, where currentTextLength plus its length reaches the target, is
truncated, switching to the cleared state with a pending prune request. An element
whose subtree held the truncation point runs the prune test on its mutated children:
with no non-blank direct text child it is removed wholesale and the request walks up,
otherwise the walk stops pruning. In cleared state text nodes are emptied and the
pending flag rides through siblings untouched. -/
def truncNode (target : Nat) : Node → TruncState → List Node × TruncState
  | .text s, .scanning cur =>
    if target ≤ cur + s.length then
      ([.text (truncTextAt s (target - cur))], .cleared true)
    else ([.text s], .scanning (cur + s.length))
  | .text _, .cleared b => ([.text ""], .cleared b)
  | .elem t attrs cs, .scanning cur =>
    match truncForest target cs (.scanning cur) with
    | (cs2, .scanning cur2) => ([.elem t attrs cs2], .scanning cur2)
    | (cs2, .cleared check) =>
      if check then
        if hasNonblankDirectText cs2 then ([.elem t attrs cs2], .cleared false)
        else ([], .cleared true)
      else ([.elem t attrs cs2], .cleared false)
  | .elem t attrs cs, .cleared b =>
    ([.elem t attrs (truncForest target cs (.cleared false)).1], .cleared b)

/-- Truncation walk over a forest, threading the walker state in document order. -/
def truncForest (target : Nat) : List Node → TruncState → List Node × TruncState
  | [], st => ([], st)
  | n :: ns, st =>
    match truncNode target n st with
    | (n2, st2) =>
      match truncForest target ns st2 with
      | (ns2, st3) => (n2 ++ ns2, st3)
end

/-- Model of truncateHTMLToWords: empty input yields the empty string; a fragment
whose JS word list is within the limit is returned unchanged; otherwise the character
length of the first wordCount words joined by single spaces is the target offset, the
walk truncates the text nodes there, and the mutated fragment is re-serialized and
trimmed. -/
def truncateHTMLToWords (frag : Html) (wordCount : Nat) : String :=
  if renderEmpty frag then ""
  else
    let words := jsTrimSplitWs (stripHTMLTags frag)
    if words.length ≤ wordCount then renderF frag
    else
      let target := (joinWithSpace (words.take wordCount)).length
      jsTrim (renderF (truncForest target frag (.scanning 0)).1)

/-! ## Preview pipeline (processPreviewDescription, src/utils/htmlUtils.ts:174) -/

/-- PREVIEW_WORD_LIMIT (src/utils/htmlUtils.ts:162). -/
def PREVIEW_WORD_LIMIT : Nat := 40

/-- Model of processPreviewDescription, the buildPreview pipeline of the spec: absent
input (none) is the empty fragment, anchors lose their navigation attributes, the
result is sanitized, the single word-count check decides truncation, and on truncation
the truncated markup gets a literal ellipsis marker appended. -/
def processPreviewDescription (description : Option Html) (wordLimit : Nat) :
    String × Bool :=
  let descriptionText := description.getD []
  let withoutHrefs := removeHrefAttributes descriptionText
  let sanitized := sanitizeHTML withoutHrefs
  let needsTruncation := exceedsWordCount sanitized wordLimit
  (if needsTruncation then truncateHTMLToWords sanitized wordLimit ++ "..."
   else renderF sanitized,
   needsTruncation)

/-! ## Photo gallery manager (src/hooks/usePhotoGallery.ts) -/

/-- UserPhoto record (src/hooks/usePhotoGallery.ts:346). -/
structure UserPhoto where
  filepath : String
  webviewPath : Option String
  dateTaken : Option Nat
  size : Option Nat
deriving DecidableEq

/-- Byte storage, the Capacitor Filesystem Data directory, modelled as an association
list from file path to the stored data string (writeFile stores the data value it is
handed). -/
abbrev FileStore := List (String × String)

/-- Filesystem.readFile against the Data directory. -/
def fsRead (files : FileStore) (path : String) : Option String :=
  (files.find? (fun e => e.1 == path)).map (fun e => e.2)

/-- Filesystem.writeFile against the Data directory: the entry under the path is
created or replaced. -/
def fsWrite (files : FileStore) (path data : String) : FileStore :=
  (path, data) :: files.filter (fun e => !(e.1 == path))

/-- Filesystem.deleteFile against the Data directory: fails (the promise rejects) when
no entry exists under the path, otherwise removes it. -/
def fsDelete (files : FileStore) (path : String) : Option FileStore :=
  if files.any (fun e => e.1 == path) then some (files.filter (fun e => !(e.1 == path)))
  else none

/-- State owned by the hook: the byte storage, the Preferences value under the photos
key (none when never set; the JSON string is modelled as the photo list it encodes),
and the in-memory photos array. -/
structure GalleryState where
  files : FileStore
  prefs : Option (List UserPhoto)
  photos : List UserPhoto
deriving DecidableEq

/-- JS String.prototype.split on the slash character, over the character list. -/
def splitSlash : List Char → List (List Char)
  | [] => [[]]
  | c :: rest =>
    if c = '/' then [] :: splitSlash rest
    else
      match splitSlash rest with
      | [] => [[c]]
      | s :: ss => (c :: s) :: ss

/-- Filename resolution of deletePhoto (src/hooks/usePhotoGallery.ts:238-243): in the
hybrid context a filepath containing a slash is reduced to its last slash-separated
segment; otherwise the filepath is the storage key as given. -/
def resolveToFilename (hybrid : Bool) (filepath : String) : String :=
  if hybrid && decide ('/' ∈ filepath.data) then ⟨(splitSlash filepath.data).getLastD []⟩
  else filepath

/-- Model of deletePhoto (src/hooks/usePhotoGallery.ts:235): resolve the storage
filename, attempt the byte-storage delete, and only on success filter the in-memory
list by exact filepath equality and rewrite the persisted index in the same step; a
storage failure is logged and re-raised, reaching the caller with the state untouched
(the try block performs no mutation before the delete resolves). -/
def deletePhoto (hybrid : Bool) (st : GalleryState) (filepath : String) :
    GalleryState × Option String :=
  let filename := resolveToFilename hybrid filepath
  match fsDelete st.files filename with
  | none => (st, some "Error deleting photo")
  | some files2 =>
    let updatedPhotos := st.photos.filter (fun p => !(p.filepath == filepath))
    (GalleryState.mk files2 (some updatedPhotos) updatedPhotos, none)

/-- Web branch of loadSaved (src/hooks/usePhotoGallery.ts:82-90): the bytes of each
indexed photo are read back and wrapped as a data URI into its webviewPath; a failing
read rejects the whole load, the source having no guard around the await. -/
def loadSavedWeb (files : FileStore) : List UserPhoto → Except String (List UserPhoto)
  | [] => .ok []
  | p :: ps =>
    match fsRead files p.filepath with
    | none => .error p.filepath
    | some d =>
      match loadSavedWeb files ps with
      | .error e => .error e
      | .ok rest =>
        .ok (UserPhoto.mk p.filepath (some ("data:image/jpeg;base64," ++ d))
          p.dateTaken p.size :: rest)

/-- Model of loadSaved (src/hooks/usePhotoGallery.ts:76): parse the persisted index,
an absent value meaning the empty list; in the hybrid context the records are used as
stored, on the web each photo is re-read into a data URI. -/
def loadSaved (hybrid : Bool) (files : FileStore) (prefs : Option (List UserPhoto)) :
    Except String (List UserPhoto) :=
  let photosInPreferences := prefs.getD []
  if hybrid then .ok photosInPreferences
  else loadSavedWeb files photosInPreferences

/-- Alphabet of standard base64. -/
def BASE64_CHARS : List Char :=
  "ABCDEFGHIJKLMNOPQRSTUVWXYZabcdefghijklmnopqrstuvwxyz0123456789+/".data

/-- Digit of standard base64. -/
def base64Digit (n : Nat) : Char := BASE64_CHARS.getD n '='

/-- Standard base64 of a byte list, three bytes to four characters with padding. -/
def base64Chars : List Nat → List Char
  | [] => []
  | [a] => [base64Digit (a / 4 % 64), base64Digit (a % 4 * 16), '=', '=']
  | [a, b] =>
    [base64Digit (a / 4 % 64), base64Digit (a % 4 * 16 + b / 16 % 16),
     base64Digit (b % 16 * 4), '=']
  | a :: b :: c :: rest =>
    base64Digit (a / 4 % 64) :: base64Digit (a % 4 * 16 + b / 16 % 16) ::
    base64Digit (b % 16 * 4 + c / 64 % 4) :: base64Digit (c % 64) :: base64Chars rest

/-- Model of convertBlobToBase64 (src/hooks/usePhotoGallery.ts:213): the result of
FileReader.readAsDataURL, a data URL wrapping the base64 encoding of the blob bytes. -/
def convertBlobToBase64 (blob : List Nat) : String :=
  "data:image/jpeg;base64," ++ ⟨base64Chars blob⟩

/-- External collaborators of one capture flow, fixed for the call: the execution
context, the string Filesystem.readFile returns for the camera file (hybrid branch),
the bytes the fetch of photo.webPath yields (web branch), the URI of the Data
directory from which the writeFile result uri is formed, and the two Date.now
readings (filename creation in addNewToGallery, dateTaken in savePicture). -/
structure CaptureEnv where
  hybrid : Bool
  cameraData : String
  blob : List Nat
  dataDirUri : String
  nowName : Nat
  nowTaken : Nat

/-- Capture result handed over by Camera.getPhoto. -/
structure CapturedPhoto where
  path : Option String
  webPath : Option String

/-- Capacitor.convertFileSrc, rewriting a file URI into a webview-servable one. -/
def convertFileSrc (uri : String) : String :=
  "capacitor://localhost/_capacitor_file_" ++ uri

/-- Filename built in addNewToGallery (src/hooks/usePhotoGallery.ts:116): the decimal
rendering of Date.now() with the fixed jpeg extension. -/
def captureFileName (nowName : Nat) : String := Nat.repr nowName ++ ".jpeg"

/-- Model of savePicture (src/hooks/usePhotoGallery.ts:156): the hybrid branch reads
the camera file (a base64 string) and takes fileSize as the length of that string; the
web branch fetches the blob, takes fileSize as the byte count of the blob, and encodes
the blob as a data URL; either way the data string is written to the Data directory
under fileName and a UserPhoto is built, the hybrid branch using the writeFile uri as
filepath and the web branch the bare fileName. -/
def savePicture (env : CaptureEnv) (photo : CapturedPhoto) (fileName : String)
    (files : FileStore) : UserPhoto × FileStore :=
  let base64Data := if env.hybrid then env.cameraData else convertBlobToBase64 env.blob
  let fileSize := if env.hybrid then env.cameraData.length else env.blob.length
  let files2 := fsWrite files fileName base64Data
  let savedUri := env.dataDirUri ++ "/" ++ fileName
  if env.hybrid then
    (UserPhoto.mk savedUri (some (convertFileSrc savedUri)) (some env.nowTaken)
      (some fileSize), files2)
  else
    (UserPhoto.mk fileName photo.webPath (some env.nowTaken) (some fileSize), files2)

/-- Model of addNewToGallery (src/hooks/usePhotoGallery.ts:107): capture, save under
the timestamp filename, prepend the saved record to the in-memory list, and rewrite
the whole persisted index in the same mutation. -/
def addNewToGallery (env : CaptureEnv) (photo : CapturedPhoto) (st : GalleryState) :
    UserPhoto × GalleryState :=
  let fileName := captureFileName env.nowName
  match savePicture env photo fileName st.files with
  | (savedImageFile, files2) =>
    let newPhotos := savedImageFile :: st.photos
    (savedImageFile, GalleryState.mk files2 (some newPhotos) newPhotos)

/-! ## Predicates over fragments used by the statements -/

mutual
/-- Check that a node tree uses only allow-listed tags, carries attributes only as the
per-anchor allow-list permits, and holds no javascript: href. -/
def sanitizedOkN : Node → Bool
  | .text _ => true
  | .elem t attrs cs =>
    ALLOWED_TAGS.contains t && attrs.all (keepAttr t) && sanitizedOkF cs

/-- Fragment-level form of the sanitized-output check. -/
def sanitizedOkF : List Node → Bool
  | [] => true
  | n :: ns => sanitizedOkN n && sanitizedOkF ns
end

mutual
/-- Check that no tag of the drop-content class (script execution vectors) occurs in a
node tree. -/
def noDropContentN : Node → Bool
  | .text _ => true
  | .elem t _ cs => !(DROP_CONTENT_TAGS.contains t) && noDropContentF cs

/-- Fragment-level form of the drop-content absence check. -/
def noDropContentF : List Node → Bool
  | [] => true
  | n :: ns => noDropContentN n && noDropContentF ns
end

mutual
/-- Check that no anchor of a node tree carries any of href, target, rel. -/
def noNavAnchorsN : Node → Bool
  | .text _ => true
  | .elem t attrs cs =>
    (!(t == "a") || attrs.all (fun p => !(NAV_ATTRS.contains p.1))) && noNavAnchorsF cs

/-- Fragment-level form of the anchor-attribute absence check. -/
def noNavAnchorsF : List Node → Bool
  | [] => true
  | n :: ns => noNavAnchorsN n && noNavAnchorsF ns
end

mutual
/-- Skeleton of a node: everything except the navigation attributes of anchors, which
are blanked. Two trees with equal skeletons differ at most in anchor attribute lists. -/
def skeletonN : Node → Node
  | .text s => .text s
  | .elem t attrs cs => .elem t (if t = "a" then [] else attrs) (skeletonF cs)

/-- Fragment-level skeleton. -/
def skeletonF : List Node → List Node
  | [] => []
  | n :: ns => skeletonN n :: skeletonF ns
end

/-- Check that a fragment consists of blank text nodes only; this characterizes the
fragments serializing to the empty string. -/
def allBlankTextF : List Node → Bool
  | [] => true
  | .text s :: ns => s.data.isEmpty && allBlankTextF ns
  | .elem _ _ _ :: _ => false

/-! ## Basic lemmas about the embedding -/

theorem textContentF_append (a b : List Node) :
    textContentF (a ++ b) = textContentF a ++ textContentF b := by
  induction a with
  | nil => simp [textContentF]
  | cons n ns ih => simp [textContentF, ih, String.append_assoc]

theorem sanitizedOkF_append (a b : List Node) :
    sanitizedOkF (a ++ b) = (sanitizedOkF a && sanitizedOkF b) := by
  induction a with
  | nil => simp [sanitizedOkF]
  | cons n ns ih => simp [sanitizedOkF, ih, Bool.and_assoc]

theorem escText_data_empty_iff (s : String) :
    (escText s).data.isEmpty = s.data.isEmpty := by
  cases s with
  | mk l =>
    cases l with
    | nil => rfl
    | cons c cs =>
      simp only [escText, List.isEmpty]
      have : escTextChar c ≠ [] := by
        unfold escTextChar
        split
        · simp
        · split
          · simp
          · split <;> simp
      cases h : escTextChar c with
      | nil => exact absurd h this
      | cons d ds => simp [h]

theorem renderN_elem_ne_empty (t : String) (attrs : List (String × String))
    (cs : List Node) : (renderN (.elem t attrs cs)).data.isEmpty = false := by
  unfold renderN
  split <;> simp [String.data_append, List.isEmpty_iff]

theorem listIsEmpty_append {α : Type} (a b : List α) :
    (a ++ b).isEmpty = (a.isEmpty && b.isEmpty) := by
  cases a <;> simp [List.isEmpty]

theorem renderF_empty_iff (l : List Node) :
    (renderF l).data.isEmpty = allBlankTextF l := by
  induction l with
  | nil => rfl
  | cons n ns ih =>
    cases n with
    | text s =>
      simp only [renderF, renderN, allBlankTextF, String.data_append,
        listIsEmpty_append, ih, escText_data_empty_iff]
    | elem t attrs cs =>
      simp only [renderF, allBlankTextF, String.data_append, listIsEmpty_append,
        renderN_elem_ne_empty, Bool.false_and]

theorem allBlankTextF_textContent (l : List Node) :
    allBlankTextF l = true → textContentF l = "" := by
  induction l with
  | nil => intro; rfl
  | cons n ns ih =>
    cases n with
    | text s =>
      intro h
      simp only [allBlankTextF, Bool.and_eq_true] at h
      have hs : s = "" := by
        cases s with
        | mk d =>
          cases d with
          | nil => rfl
          | cons c cs => simp [List.isEmpty] at h
      rw [textContentF, textContentN, hs, ih h.2]
      rfl
    | elem t attrs cs => intro h; simp [allBlankTextF] at h

theorem renderEmpty_textContent (l : List Node) :
    renderEmpty l = true → textContentF l = "" := by
  intro h
  exact allBlankTextF_textContent l (by rw [← renderF_empty_iff]; exact h)

/-! ## Lemmas about the sanitizer -/

mutual
theorem sanitizeN_ok : ∀ n : Node, sanitizedOkF (sanitizeN n) = true
  | .text s => by simp [sanitizeN, sanitizedOkF, sanitizedOkN]
  | .elem t attrs cs => by
    rw [sanitizeN]
    split
    · rename_i hall
      have hfil : ∀ x ∈ attrs.filter (keepAttr t), keepAttr t x = true := by
        intro x hx
        exact (List.mem_filter.mp hx).2
      simp only [sanitizedOkF, sanitizedOkN, Bool.and_eq_true, List.all_eq_true]
      exact ⟨⟨⟨hall, hfil⟩, sanitizeF_ok cs⟩, trivial⟩
    · split
      · rfl
      · exact sanitizeF_ok cs

theorem sanitizeF_ok : ∀ l : List Node, sanitizedOkF (sanitizeF l) = true
  | [] => rfl
  | n :: ns => by
    rw [sanitizeF, sanitizedOkF_append, sanitizeN_ok n, sanitizeF_ok ns]
    rfl
end

mutual
theorem sanitizeN_text : ∀ n : Node, noDropContentN n = true →
    textContentF (sanitizeN n) = textContentN n
  | .text s => by
    intro _
    simp [sanitizeN, textContentF, textContentN]
  | .elem t attrs cs => by
    intro h
    simp only [noDropContentN, Bool.and_eq_true] at h
    rw [sanitizeN]
    split
    · simp [textContentF, textContentN, sanitizeF_text cs h.2]
    · split
      · rename_i hdrop
        have h1 := h.1
        simp at h1 hdrop
        exact absurd hdrop h1
      · rw [sanitizeF_text cs h.2]
        rfl

theorem sanitizeF_text : ∀ l : List Node, noDropContentF l = true →
    textContentF (sanitizeF l) = textContentF l
  | [] => by intro; rfl
  | n :: ns => by
    intro h
    simp only [noDropContentF, Bool.and_eq_true] at h
    rw [sanitizeF, textContentF_append, sanitizeN_text n h.1, sanitizeF_text ns h.2,
      textContentF]
end

/-! ## Lemmas about the link neutralizer -/

mutual
theorem stripLinksN_idem : ∀ n : Node, stripLinksN (stripLinksN n) = stripLinksN n
  | .text s => rfl
  | .elem t attrs cs => by
    rw [stripLinksN, stripLinksN]
    rw [stripLinksF_idem cs]
    split
    · rename_i ha
      simp [ha, List.filter_filter]
    · rfl

theorem stripLinksF_idem : ∀ l : List Node, stripLinksF (stripLinksF l) = stripLinksF l
  | [] => rfl
  | n :: ns => by
    rw [stripLinksF, stripLinksF, stripLinksN_idem n, stripLinksF_idem ns]
end

mutual
theorem stripLinksN_text : ∀ n : Node, textContentN (stripLinksN n) = textContentN n
  | .text s => rfl
  | .elem t attrs cs => by
    rw [stripLinksN]
    simp [textContentN, stripLinksF_text cs]

theorem stripLinksF_text : ∀ l : List Node,
    textContentF (stripLinksF l) = textContentF l
  | [] => rfl
  | n :: ns => by
    rw [stripLinksF, textContentF, stripLinksN_text n, stripLinksF_text ns, textContentF]
end

mutual
theorem stripLinksN_nav : ∀ n : Node, noNavAnchorsN (stripLinksN n) = true
  | .text s => rfl
  | .elem t attrs cs => by
    rw [stripLinksN]
    simp only [noNavAnchorsN, Bool.and_eq_true]
    refine ⟨?_, stripLinksF_nav cs⟩
    split
    · rename_i ha
      have : ∀ x ∈ attrs.filter (fun p => !(NAV_ATTRS.contains p.1)),
          (!(NAV_ATTRS.contains x.1)) = true := by
        intro x hx
        exact (List.mem_filter.mp hx).2
      simp [List.all_eq_true, this]
    · rename_i ha
      have : (t == "a") = false := by
        cases h : t == "a"
        · rfl
        · exact absurd (eq_of_beq h) ha
      simp [this]

theorem stripLinksF_nav : ∀ l : List Node, noNavAnchorsF (stripLinksF l) = true
  | [] => rfl
  | n :: ns => by
    rw [stripLinksF, noNavAnchorsF, stripLinksN_nav n, stripLinksF_nav ns]
    rfl
end

mutual
theorem stripLinksN_skeleton : ∀ n : Node, skeletonN (stripLinksN n) = skeletonN n
  | .text s => rfl
  | .elem t attrs cs => by
    rw [stripLinksN, skeletonN, skeletonN]
    rw [stripLinksF_skeleton cs]
    split
    · rename_i ha
      simp [ha]
    · rfl

theorem stripLinksF_skeleton : ∀ l : List Node,
    skeletonF (stripLinksF l) = skeletonF l
  | [] => rfl
  | n :: ns => by
    rw [stripLinksF, skeletonF, stripLinksN_skeleton n, stripLinksF_skeleton ns,
      skeletonF]
end

theorem stripLinksF_allBlank (l : List Node) :
    allBlankTextF (stripLinksF l) = allBlankTextF l := by
  induction l with
  | nil => rfl
  | cons n ns ih =>
    cases n with
    | text s => rw [stripLinksF, stripLinksN, allBlankTextF, ih, allBlankTextF]
    | elem t attrs cs => rw [stripLinksF, stripLinksN, allBlankTextF]; rfl

/-! ## Lemmas about word splitting -/

theorem splitWsAux_allWs (t : List Char) (acc : List Char)
    (h : ∀ c ∈ t, isJsSpace c = true) :
    splitWsAux t acc = if acc.isEmpty then [] else [⟨acc.reverse⟩] := by
  induction t generalizing acc with
  | nil => rfl
  | cons c cs ih =>
    rw [splitWsAux, if_pos (h c (List.mem_cons_self c cs))]
    have hrest : ∀ d ∈ cs, isJsSpace d = true := fun d hd => h d (List.mem_cons_of_mem c hd)
    split
    · exact ih [] hrest
    · rw [ih [] hrest]
      rfl

theorem splitWsAux_append_ws (l t : List Char) (acc : List Char)
    (h : ∀ c ∈ t, isJsSpace c = true) :
    splitWsAux (l ++ t) acc = splitWsAux l acc := by
  induction l generalizing acc with
  | nil =>
    rw [List.nil_append, splitWsAux_allWs t acc h]
    rfl
  | cons c cs ih =>
    rw [List.cons_append, splitWsAux, splitWsAux]
    split
    · split
      · exact ih []
      · rw [ih []]
    · exact ih (c :: acc)

theorem splitWsAux_dropWhile (l : List Char) :
    splitWsAux (l.dropWhile isJsSpace) [] = splitWsAux l [] := by
  induction l with
  | nil => rfl
  | cons c cs ih =>
    rw [List.dropWhile_cons]
    by_cases h : isJsSpace c = true
    · rw [if_pos h, ih, splitWsAux, if_pos h]
      rfl
    · rw [if_neg h]

theorem trimChars_decomp (l : List Char) :
    l.dropWhile isJsSpace
      = trimChars l ++ ((l.dropWhile isJsSpace).reverse.takeWhile isJsSpace).reverse
    ∧ ∀ c ∈ ((l.dropWhile isJsSpace).reverse.takeWhile isJsSpace).reverse,
        isJsSpace c = true := by
  constructor
  · unfold trimChars
    have h1 := List.takeWhile_append_dropWhile isJsSpace (l.dropWhile isJsSpace).reverse
    have h2 := congrArg List.reverse h1
    simp only [List.reverse_append, List.reverse_reverse] at h2
    exact h2.symm
  · intro c hc
    rw [List.mem_reverse] at hc
    exact List.mem_takeWhile_imp hc

theorem wsTokens_trimChars (l : List Char) :
    splitWsAux (trimChars l) [] = splitWsAux l [] := by
  have hd := trimChars_decomp l
  calc splitWsAux (trimChars l) []
      = splitWsAux (trimChars l
          ++ ((l.dropWhile isJsSpace).reverse.takeWhile isJsSpace).reverse) [] :=
        (splitWsAux_append_ws _ _ [] hd.2).symm
    _ = splitWsAux (l.dropWhile isJsSpace) [] := by rw [← hd.1]
    _ = splitWsAux l [] := splitWsAux_dropWhile l

theorem wsTokens_trim (s : String) : wsTokens (jsTrim s) = wsTokens s := by
  unfold wsTokens jsTrim
  exact wsTokens_trimChars s.data

theorem trimChars_all_ws (l : List Char) (h : trimChars l = []) :
    ∀ c ∈ l, isJsSpace c = true := by
  intro c hc
  have hd := trimChars_decomp l
  have hfront := List.takeWhile_append_dropWhile isJsSpace l
  rw [← hfront] at hc
  rcases List.mem_append.mp hc with h1 | h1
  · exact List.mem_takeWhile_imp h1
  · rw [hd.1, h, List.nil_append] at h1
    exact hd.2 c h1

theorem wsTokens_nil_of_trim_nil (s : String) (h : (trimChars s.data).isEmpty = true) :
    wsTokens s = [] := by
  rw [List.isEmpty_iff] at h
  unfold wsTokens
  rw [splitWsAux_allWs s.data [] (trimChars_all_ws s.data h)]
  rfl

theorem jsTrimSplitWs_blank (s : String) (h : (trimChars s.data).isEmpty = true) :
    jsTrimSplitWs s = [""] := by
  unfold jsTrimSplitWs jsTrim
  simp [h]

theorem jsTrimSplitWs_tokens (s : String) (h : (trimChars s.data).isEmpty = false) :
    jsTrimSplitWs s = wsTokens s := by
  unfold jsTrimSplitWs
  have hh : (jsTrim s).data.isEmpty = false := h
  simp only [hh, Bool.false_eq_true, if_false]
  exact wsTokens_trim s

/-! ## Lemmas about filepath resolution and the capture filename -/

theorem splitSlash_ne_nil (l : List Char) : splitSlash l ≠ [] := by
  cases l with
  | nil => simp [splitSlash]
  | cons c rest =>
    rw [splitSlash]
    split
    · simp
    · split <;> simp

theorem splitSlash_no_slash (l : List Char) (h : ∀ c ∈ l, c ≠ '/') :
    splitSlash l = [l] := by
  induction l with
  | nil => rfl
  | cons c rest ih =>
    rw [splitSlash, if_neg (h c (List.mem_cons_self c rest))]
    rw [ih (fun d hd => h d (List.mem_cons_of_mem c hd))]

theorem splitSlash_length_two (l : List Char) (h : '/' ∈ l) :
    2 ≤ (splitSlash l).length := by
  induction l with
  | nil => cases h
  | cons c rest ih =>
    rw [splitSlash]
    by_cases hc : c = '/'
    · rw [if_pos hc]
      have h1 : 1 ≤ (splitSlash rest).length :=
        List.length_pos.mpr (splitSlash_ne_nil rest)
      simp only [List.length_cons]
      omega
    · rw [if_neg hc]
      have hmem : '/' ∈ rest := by
        cases List.mem_cons.mp h with
        | inl h1 => exact absurd h1.symm hc
        | inr h1 => exact h1
      have h2 := ih hmem
      cases hsp : splitSlash rest with
      | nil => exact absurd hsp (splitSlash_ne_nil rest)
      | cons s ss =>
        rw [hsp] at h2
        simp only [List.length_cons] at h2 ⊢
        omega

theorem splitSlash_getLast_append (xs ys : List Char) (h : ∀ c ∈ ys, c ≠ '/') :
    (splitSlash (xs ++ '/' :: ys)).getLast? = some ys := by
  induction xs with
  | nil =>
    rw [List.nil_append, splitSlash, if_pos rfl, splitSlash_no_slash ys h]
    rfl
  | cons c xs ih =>
    rw [List.cons_append, splitSlash]
    by_cases hc : c = '/'
    · rw [if_pos hc]
      cases hsp : splitSlash (xs ++ '/' :: ys) with
      | nil => exact absurd hsp (splitSlash_ne_nil _)
      | cons s ss =>
        rw [hsp] at ih
        rw [List.getLast?_cons_cons]
        exact ih
    · rw [if_neg hc]
      have hlen : 2 ≤ (splitSlash (xs ++ '/' :: ys)).length :=
        splitSlash_length_two _ (by simp)
      cases hsp : splitSlash (xs ++ '/' :: ys) with
      | nil => exact absurd hsp (splitSlash_ne_nil _)
      | cons s ss =>
        rw [hsp] at ih hlen
        cases ss with
        | nil => simp at hlen
        | cons s2 ss2 =>
          rw [List.getLast?_cons_cons]
          rw [List.getLast?_cons_cons] at ih
          exact ih

theorem digitChar_ne_slash (n : Nat) : Nat.digitChar n ≠ '/' := by
  rcases Nat.lt_or_ge n 16 with h16 | h16
  · interval_cases n <;> decide
  · unfold Nat.digitChar
    have hne : ∀ m : Nat, m < 16 → ¬ n = m := by
      intro m hm
      omega
    rw [if_neg (hne 0 (by norm_num)), if_neg (hne 1 (by norm_num)),
      if_neg (hne 2 (by norm_num)), if_neg (hne 3 (by norm_num)),
      if_neg (hne 4 (by norm_num)), if_neg (hne 5 (by norm_num)),
      if_neg (hne 6 (by norm_num)), if_neg (hne 7 (by norm_num)),
      if_neg (hne 8 (by norm_num)), if_neg (hne 9 (by norm_num)),
      if_neg (hne 10 (by norm_num)), if_neg (hne 11 (by norm_num)),
      if_neg (hne 12 (by norm_num)), if_neg (hne 13 (by norm_num)),
      if_neg (hne 14 (by norm_num)), if_neg (hne 15 (by norm_num))]
    decide

theorem toDigitsCore_ne_slash : ∀ (fuel n : Nat) (ds : List Char),
    (∀ c ∈ ds, c ≠ '/') → ∀ c ∈ Nat.toDigitsCore 10 fuel n ds, c ≠ '/' := by
  intro fuel
  induction fuel with
  | zero =>
    intro n ds h
    simpa [Nat.toDigitsCore] using h
  | succ f ih =>
    intro n ds h c hc
    rw [Nat.toDigitsCore] at hc
    split at hc
    · rcases List.mem_cons.mp hc with h1 | h1
      · rw [h1]; exact digitChar_ne_slash _
      · exact h c h1
    · refine ih _ _ ?_ c hc
      intro d hd
      rcases List.mem_cons.mp hd with h1 | h1
      · rw [h1]; exact digitChar_ne_slash _
      · exact h d h1

theorem natRepr_ne_slash (n : Nat) : ∀ c ∈ (Nat.repr n).data, c ≠ '/' := by
  intro c hc
  have hdata : (Nat.repr n).data = Nat.toDigits 10 n := rfl
  rw [hdata, Nat.toDigits] at hc
  exact toDigitsCore_ne_slash (n + 1) n [] (by intro d hd; cases hd) c hc

theorem captureFileName_ne_slash (t : Nat) : ∀ c ∈ (captureFileName t).data, c ≠ '/' := by
  intro c hc
  unfold captureFileName at hc
  rw [String.data_append] at hc
  rcases List.mem_append.mp hc with h1 | h1
  · exact natRepr_ne_slash t c h1
  · intro heq
    rw [heq] at h1
    revert h1
    decide

theorem resolveToFilename_uri (pre fn : String) (h : ∀ c ∈ fn.data, c ≠ '/') :
    resolveToFilename true (pre ++ "/" ++ fn) = fn := by
  unfold resolveToFilename
  have hdata : (pre ++ "/" ++ fn).data = pre.data ++ '/' :: fn.data := by
    simp [String.data_append]
  have hmem : '/' ∈ (pre ++ "/" ++ fn).data := by
    rw [hdata]
    simp
  rw [if_pos (by simp [hmem])]
  rw [hdata, List.getLastD_eq_getLast?, splitSlash_getLast_append pre.data fn.data h]
  rfl

/-! ## Auxiliary facts feeding the claim theorems -/

theorem renderEmpty_stripLinksF (l : List Node) :
    renderEmpty (stripLinksF l) = renderEmpty l := by
  unfold renderEmpty
  rw [renderF_empty_iff, renderF_empty_iff, stripLinksF_allBlank]

theorem string_of_data_empty (s : String) (h : s.data.isEmpty = true) : s = "" := by
  rw [List.isEmpty_iff] at h
  cases s with
  | mk d =>
    change d = [] at h
    rw [h]

/-! ## Claim C1 -/

/-- C1 (amended): for every fragment the sanitizer output uses only allow-listed tags
and carries attributes only as the per-anchor allow-list permits, with no javascript:
href surviving; empty input yields empty output; and the text content of removed tags
is preserved for every fragment free of the drop-content tags (the script execution
vectors), whose subtrees are dropped wholesale rather than preserved as text. -/
theorem sanitizeHTML_allowlist (frag : Html) :
    sanitizedOkF (sanitizeHTML frag) = true
  ∧ (noDropContentF frag = true →
      textContentF (sanitizeHTML frag) = textContentF frag)
  ∧ sanitizeHTML ([] : Html) = [] := by
  refine ⟨?_, ?_, rfl⟩
  · unfold sanitizeHTML
    split
    · rfl
    · exact sanitizeF_ok frag
  · intro h
    unfold sanitizeHTML
    split
    · rename_i hre
      rw [textContentF]
      exact (renderEmpty_textContent frag hre).symm
    · exact sanitizeF_text frag h

/-- Witness for C1 at a concrete input: a bold element carrying an inline handler is
removed, its text is kept, and the drop-content hypothesis holds there. -/
theorem sanitizeHTML_allowlist_witness :
    noDropContentF [Node.elem "b" [("onclick", "x")] [Node.text "hi"]] = true
  ∧ textContentF (sanitizeHTML [Node.elem "b" [("onclick", "x")] [Node.text "hi"]])
      = textContentF [Node.elem "b" [("onclick", "x")] [Node.text "hi"]] :=
  ⟨by decide,
   (sanitizeHTML_allowlist [Node.elem "b" [("onclick", "x")] [Node.text "hi"]]).2.1
     (by decide)⟩

/-- Counterexample to C1 as stated: the text content of a removed script tag is not
preserved; the sanitizer drops the body of a script element entirely, as the spec
scenario itself requires. -/
theorem sanitizeHTML_script_text_cex :
    sanitizeHTML [Node.elem "script" [] [Node.text "alert(1)"]] = []
  ∧ textContentF [Node.elem "script" [] [Node.text "alert(1)"]] = "alert(1)"
  ∧ textContentF (sanitizeHTML [Node.elem "script" [] [Node.text "alert(1)"]])
      ≠ "alert(1)" :=
  ⟨rfl, rfl, by decide⟩

/-! ## Claim C2 -/

/-- C2: evaluation of the truncation at the scenario input of the claim. The source
keeps two words where the claim and the source doc comment expect three: the target
offset equals the character length of the first three words, the substring up to it
carries no trailing space, and lastIndexOf backs up to the boundary before the third
word. -/
theorem truncateHTMLToWords_scenario :
    truncateHTMLToWords [Node.elem "p" [] [Node.text "one two three four five"]] 3
      = "<p>one two</p>"
  ∧ "<p>one two</p>" ≠ "<p>one two three</p>" :=
  ⟨by decide, by decide⟩

/-! ## Claim C3 -/

/-- Counterexample to C3 as stated: a division element with no text sanitizes to
nonempty markup with zero plain-text words, yet at word limit zero the pipeline
reports truncation, the JS split of the blank text yielding one empty word. -/
theorem isTruncated_blank_cex :
    (processPreviewDescription (some [Node.elem "div" [] []]) 0).2 = true
  ∧ wordCount (textContentF (sanitizeHTML (removeHrefAttributes
      [Node.elem "div" [] []]))) = 0 :=
  ⟨by decide, by decide⟩

/-- C3 (amended): isTruncated is true exactly when the sanitized, link-neutralized
input is nonempty markup whose JS word list is longer than the limit; for text holding
a non-whitespace character that length is the plain word count, giving the original
iff there, while the blank text of nonempty markup counts as one word. -/
theorem isTruncated_iff (d : Option Html) (w : Nat) :
    ((processPreviewDescription d w).2 = true ↔
      (renderEmpty (sanitizeHTML (removeHrefAttributes (d.getD []))) = false ∧
        w < (jsTrimSplitWs (textContentF (sanitizeHTML (removeHrefAttributes
          (d.getD []))))).length))
  ∧ (∀ s : String, (trimChars s.data).isEmpty = false →
      (jsTrimSplitWs s).length = wordCount s) := by
  constructor
  · cases h : renderEmpty (sanitizeHTML (removeHrefAttributes (d.getD []))) <;>
      simp [processPreviewDescription, exceedsWordCount, stripHTMLTags, h]
  · intro s h
    rw [jsTrimSplitWs_tokens s h]
    rfl

/-- Witness for C3 at a concrete input: two words against limit one truncates, and the
nonblank word-list length agrees with the plain word count. -/
theorem isTruncated_iff_witness :
    (processPreviewDescription (some [Node.elem "p" [] [Node.text "hello world"]]) 1).2
      = true
  ∧ (jsTrimSplitWs "hello world").length = wordCount "hello world" :=
  ⟨(isTruncated_iff (some [Node.elem "p" [] [Node.text "hello world"]]) 1).1.mpr
      ⟨by decide, by decide⟩,
   (isTruncated_iff (some [Node.elem "p" [] [Node.text "hello world"]]) 1).2
      "hello world" (by decide)⟩

/-! ## Claim C4 -/

/-- C4: the pipeline equals the composition in the fixed order of the spec: absent or
empty input as the empty fragment, link stripping strictly before sanitization,
sanitization strictly before the single word-count check, and only on excess the
truncation of the sanitized markup with the appended ellipsis marker and a true flag,
else the sanitized markup passed through unchanged with a false flag. -/
theorem processPreviewDescription_order (d : Option Html) (w : Nat) :
    processPreviewDescription d w
      = (if exceedsWordCount (sanitizeHTML (removeHrefAttributes (d.getD []))) w
         then (truncateHTMLToWords (sanitizeHTML (removeHrefAttributes (d.getD []))) w
            ++ "...", true)
         else (renderF (sanitizeHTML (removeHrefAttributes (d.getD []))), false)) := by
  unfold processPreviewDescription
  cases h : exceedsWordCount (sanitizeHTML (removeHrefAttributes (d.getD []))) w <;>
    simp [h]

/-! ## Claim C5 -/

/-- C5: removeHrefAttributes is idempotent, preserves all text content, leaves no
href, target or rel on any anchor of its output, and on markup serializing nonempty
preserves the whole tag structure and the attributes of non-anchor elements (the
skeleton). -/
theorem removeHrefAttributes_spec (x : Html) :
    removeHrefAttributes (removeHrefAttributes x) = removeHrefAttributes x
  ∧ textContentF (removeHrefAttributes x) = textContentF x
  ∧ noNavAnchorsF (removeHrefAttributes x) = true
  ∧ (renderEmpty x = false → skeletonF (removeHrefAttributes x) = skeletonF x) := by
  unfold removeHrefAttributes
  cases h : renderEmpty x with
  | true =>
    simp only [if_pos rfl, Bool.true_eq_false]
    refine ⟨rfl, (renderEmpty_textContent x h).symm, rfl, ?_⟩
    intro hf
    cases hf
  | false =>
    simp only [Bool.false_eq_true, if_false]
    have h2 : renderEmpty (stripLinksF x) = false := by
      rw [renderEmpty_stripLinksF]
      exact h
    refine ⟨?_, stripLinksF_text x, stripLinksF_nav x, fun _ => stripLinksF_skeleton x⟩
    rw [h2]
    simp only [Bool.false_eq_true, if_false]
    exact stripLinksF_idem x

/-- Witness for C5 at a concrete input: an anchor with an href and an id keeps its
skeleton through the mutation. -/
theorem removeHrefAttributes_spec_witness :
    skeletonF (removeHrefAttributes
        [Node.elem "a" [("href", "u"), ("id", "k")] [Node.text "t"]])
      = skeletonF [Node.elem "a" [("href", "u"), ("id", "k")] [Node.text "t"]] :=
  (removeHrefAttributes_spec
      [Node.elem "a" [("href", "u"), ("id", "k")] [Node.text "t"]]).2.2.2 (by decide)

/-! ## Claim C6 -/

/-- Counterexample to C6 as stated: an empty paragraph sanitizes to nonempty markup
with zero plain-text words, so at word limit zero the count does not exceed the limit,
yet the pipeline truncates, appends the ellipsis marker and flags isTruncated. -/
theorem preview_unchanged_cex :
    wordCount (textContentF (sanitizeHTML (removeHrefAttributes
      [Node.elem "p" [] []]))) = 0
  ∧ (processPreviewDescription (some [Node.elem "p" [] []]) 0).2 = true
  ∧ (processPreviewDescription (some [Node.elem "p" [] []]) 0).1 = "<p></p>..." :=
  ⟨by decide, by decide, by decide⟩

/-- C6 (amended): whenever the plain-text word count of the sanitized,
link-neutralized input is at most the limit, and moreover the limit is at least one or
the sanitized markup is empty (ruling out the blank-text artifact of the JS split at
limit zero), truncation returns the sanitized markup unchanged, isTruncated is false
and processedMarkup is exactly the sanitized markup. -/
theorem preview_unchanged (m : Option Html) (w : Nat)
    (hcount : wordCount (textContentF (sanitizeHTML (removeHrefAttributes
      (m.getD [])))) ≤ w)
    (hside : 1 ≤ w ∨ renderEmpty (sanitizeHTML (removeHrefAttributes (m.getD [])))
      = true) :
    truncateHTMLToWords (sanitizeHTML (removeHrefAttributes (m.getD []))) w
      = renderF (sanitizeHTML (removeHrefAttributes (m.getD [])))
  ∧ processPreviewDescription m w
      = (renderF (sanitizeHTML (removeHrefAttributes (m.getD []))), false) := by
  cases hre : renderEmpty (sanitizeHTML (removeHrefAttributes (m.getD []))) with
  | true =>
    have hnil : renderF (sanitizeHTML (removeHrefAttributes (m.getD []))) = "" :=
      string_of_data_empty _ hre
    constructor
    · unfold truncateHTMLToWords
      rw [if_pos hre, hnil]
    · simp [processPreviewDescription, exceedsWordCount, hre, hnil]
  | false =>
    have hlen : (jsTrimSplitWs (stripHTMLTags (sanitizeHTML (removeHrefAttributes
        (m.getD []))))).length ≤ w := by
      have hst : stripHTMLTags (sanitizeHTML (removeHrefAttributes (m.getD [])))
          = textContentF (sanitizeHTML (removeHrefAttributes (m.getD []))) := by
        unfold stripHTMLTags
        rw [hre]
        simp only [Bool.false_eq_true, if_false]
      rw [hst]
      cases hbl : (trimChars (textContentF (sanitizeHTML (removeHrefAttributes
          (m.getD [])))).data).isEmpty with
      | true =>
        rw [jsTrimSplitWs_blank _ hbl]
        rcases hside with h1 | h1
        · simpa using h1
        · rw [h1] at hre
          cases hre
      | false =>
        rw [jsTrimSplitWs_tokens _ hbl]
        exact hcount
    have hexc : exceedsWordCount (sanitizeHTML (removeHrefAttributes (m.getD []))) w
        = false := by
      unfold exceedsWordCount
      rw [hre]
      simp only [Bool.false_eq_true, if_false, decide_eq_false_iff_not, not_lt]
      exact hlen
    constructor
    · unfold truncateHTMLToWords
      rw [hre]
      simp only [Bool.false_eq_true, if_false]
      rw [if_pos hlen]
    · simp [processPreviewDescription, hexc]

/-- Witness for C6 at a concrete input: one word against limit five passes through
unchanged. -/
theorem preview_unchanged_witness :
    truncateHTMLToWords (sanitizeHTML (removeHrefAttributes
        ((some [Node.elem "p" [] [Node.text "hi"]]).getD []))) 5
      = renderF (sanitizeHTML (removeHrefAttributes
        ((some [Node.elem "p" [] [Node.text "hi"]]).getD [])))
  ∧ processPreviewDescription (some [Node.elem "p" [] [Node.text "hi"]]) 5
      = (renderF (sanitizeHTML (removeHrefAttributes
        ((some [Node.elem "p" [] [Node.text "hi"]]).getD []))), false) :=
  preview_unchanged (some [Node.elem "p" [] [Node.text "hi"]]) 5 (by decide)
    (Or.inl (by decide))

/-! ## Lemmas about the modelled byte storage and index load -/

theorem fsRead_none_iff (files : FileStore) (p : String) :
    fsRead files p = none ↔ files.any (fun e => e.1 == p) = false := by
  unfold fsRead
  constructor
  · intro h
    cases hf : files.find? (fun e => e.1 == p) with
    | none =>
      rw [List.find?_eq_none] at hf
      rw [List.any_eq_false]
      exact hf
    | some e => rw [hf] at h; cases h
  · intro h
    rw [List.any_eq_false] at h
    have : files.find? (fun e => e.1 == p) = none := List.find?_eq_none.mpr h
    rw [this]
    rfl

theorem fsRead_filter_none (files : FileStore) (p : String) :
    fsRead (files.filter (fun e => !(e.1 == p))) p = none := by
  rw [fsRead_none_iff, List.any_eq_false]
  intro e he
  have := (List.mem_filter.mp he).2
  simp at this ⊢
  exact this

theorem fsRead_write (files : FileStore) (p d : String) :
    fsRead (fsWrite files p d) p = some d := by
  unfold fsRead fsWrite
  rw [List.find?_cons_of_pos _ (by simp)]
  rfl

theorem loadSavedWeb_filepaths (files : FileStore) :
    ∀ (ps res : List UserPhoto), loadSavedWeb files ps = .ok res →
      ∀ p ∈ res, ∃ q ∈ ps, p.filepath = q.filepath := by
  intro ps
  induction ps with
  | nil =>
    intro res h p hp
    unfold loadSavedWeb at h
    cases h
    cases hp
  | cons q qs ih =>
    intro res h p hp
    unfold loadSavedWeb at h
    cases hr : fsRead files q.filepath with
    | none => rw [hr] at h; cases h
    | some d =>
      rw [hr] at h
      cases hrest : loadSavedWeb files qs with
      | error e => rw [hrest] at h; cases h
      | ok rest =>
        rw [hrest] at h
        cases h
        cases List.mem_cons.mp hp with
        | inl h1 =>
          refine ⟨q, List.mem_cons_self q qs, ?_⟩
          rw [h1]
        | inr h1 =>
          obtain ⟨q2, hq2, hq2e⟩ := ih rest hrest p h1
          exact ⟨q2, List.mem_cons_of_mem q hq2, hq2e⟩

theorem loadSavedWeb_head (files : FileStore) (p : UserPhoto) (ps res : List UserPhoto)
    (h : loadSavedWeb files (p :: ps) = .ok res) :
    res.head?.map UserPhoto.filepath = some p.filepath := by
  unfold loadSavedWeb at h
  cases hr : fsRead files p.filepath with
  | none => rw [hr] at h; cases h
  | some d =>
    rw [hr] at h
    cases hrest : loadSavedWeb files ps with
    | error e => rw [hrest] at h; cases h
    | ok rest =>
      rw [hrest] at h
      cases h
      rfl

/-! ## Claim C7 -/

/-- C7: deletePhoto attempts the byte-storage deletion first; on success every record
matching the filepath exactly is removed from the in-memory list, the persisted index
is rewritten to exactly that list, the resolved byte-storage entry is gone, a fresh
hybrid load yields exactly the updated list and a fresh web load, when it succeeds,
yields no record with the deleted filepath; a failure, which occurs exactly when the
resolved entry is absent from byte storage, is reported to the caller with the state
returned completely unchanged. -/
theorem deletePhoto_correct (hybrid : Bool) (st : GalleryState) (fp : String) :
    (∀ st2, deletePhoto hybrid st fp = (st2, none) →
        st2.photos = st.photos.filter (fun p => !(p.filepath == fp))
      ∧ st2.prefs = some st2.photos
      ∧ (∀ p ∈ st2.photos, ¬ p.filepath = fp)
      ∧ fsRead st2.files (resolveToFilename hybrid fp) = none
      ∧ loadSaved true st2.files st2.prefs = .ok st2.photos
      ∧ (∀ res, loadSaved false st2.files st2.prefs = .ok res →
          ∀ p ∈ res, ¬ p.filepath = fp))
  ∧ (∀ st2 e, deletePhoto hybrid st fp = (st2, some e) → st2 = st)
  ∧ ((deletePhoto hybrid st fp).2.isSome = true ↔
      fsRead st.files (resolveToFilename hybrid fp) = none) := by
  unfold deletePhoto
  cases hdel : fsDelete st.files (resolveToFilename hybrid fp) with
  | none =>
    simp only [hdel]
    refine ⟨?_, ?_, ?_⟩
    · intro st2 heq
      simp at heq
    · intro st2 e heq
      have h1 := congrArg Prod.fst heq
      exact h1.symm
    · simp only [Option.isSome_some, true_iff]
      have hany : st.files.any (fun e => e.1 == resolveToFilename hybrid fp) = false := by
        unfold fsDelete at hdel
        by_cases h : st.files.any (fun e => e.1 == resolveToFilename hybrid fp) = true
        · rw [if_pos h] at hdel
          cases hdel
        · exact Bool.eq_false_iff.mpr h
      rw [fsRead_none_iff]
      exact hany
  | some files2 =>
    have hdel2 := hdel
    unfold fsDelete at hdel2
    split at hdel2
    case isFalse => cases hdel2
    case isTrue hany =>
    injection hdel2 with hfiles2
    simp only [hdel]
    refine ⟨?_, ?_, ?_⟩
    · intro st2 heq
      have h1 := congrArg Prod.fst heq
      cases h1
      refine ⟨rfl, rfl, ?_, ?_, rfl, ?_⟩
      · intro p hp heqfp
        have := (List.mem_filter.mp hp).2
        rw [heqfp] at this
        simp at this
      · rw [← hfiles2]
        exact fsRead_filter_none st.files (resolveToFilename hybrid fp)
      · intro res hres p hp
        obtain ⟨q, hq, hqe⟩ := loadSavedWeb_filepaths files2 _ res hres p hp
        have hq2 := (List.mem_filter.mp hq).2
        intro heqfp
        rw [← hqe] at hq2
        rw [heqfp] at hq2
        simp at hq2
    · intro st2 e heq
      have h2 := congrArg Prod.snd heq
      simp at h2
    · simp only [Option.isSome_none, Bool.false_eq_true, false_iff]
      rw [fsRead_none_iff]
      simp [hany]

/-- Witness for C7 at a concrete state: one stored photo is deleted on the web
context, leaving empty state, and the conclusions hold there. -/
theorem deletePhoto_correct_witness :
    (deletePhoto false
        (GalleryState.mk [("123.jpeg", "d")]
          (some [UserPhoto.mk "123.jpeg" none none none])
          [UserPhoto.mk "123.jpeg" none none none]) "123.jpeg").1.photos = []
  ∧ fsRead (deletePhoto false
        (GalleryState.mk [("123.jpeg", "d")]
          (some [UserPhoto.mk "123.jpeg" none none none])
          [UserPhoto.mk "123.jpeg" none none none]) "123.jpeg").1.files "123.jpeg"
      = none := by
  have h := (deletePhoto_correct false
    (GalleryState.mk [("123.jpeg", "d")]
      (some [UserPhoto.mk "123.jpeg" none none none])
      [UserPhoto.mk "123.jpeg" none none none]) "123.jpeg").1
    (deletePhoto false
      (GalleryState.mk [("123.jpeg", "d")]
        (some [UserPhoto.mk "123.jpeg" none none none])
        [UserPhoto.mk "123.jpeg" none none none]) "123.jpeg").1 (by rfl)
  refine ⟨?_, ?_⟩
  · rw [h.1]
    rfl
  · have h4 := h.2.2.2.1
    exact h4

/-! ## Claim C8 -/

/-- C8: after every successful capture the returned UserPhoto carries the
timestamp-plus-jpeg filename (as the filepath on the web, as the tail of the written
uri on hybrid) and dateTaken equal to the Date.now reading of the save; it sits at
index 0 of the in-memory list, the whole list is re-persisted in the same mutation, a
fresh hybrid load yields exactly that list and a fresh web load, when it succeeds,
has the photo at index 0; and the byte-storage entry written under the capture
filename exists. -/
theorem addNewToGallery_correct (env : CaptureEnv) (photo : CapturedPhoto)
    (st : GalleryState) :
    (addNewToGallery env photo st).2.photos
        = (addNewToGallery env photo st).1 :: st.photos
  ∧ (addNewToGallery env photo st).2.photos.head?
        = some (addNewToGallery env photo st).1
  ∧ (addNewToGallery env photo st).2.prefs
        = some (addNewToGallery env photo st).2.photos
  ∧ (addNewToGallery env photo st).1.filepath
        = (if env.hybrid then env.dataDirUri ++ "/" ++ captureFileName env.nowName
           else captureFileName env.nowName)
  ∧ (addNewToGallery env photo st).1.dateTaken = some env.nowTaken
  ∧ loadSaved true (addNewToGallery env photo st).2.files
        (addNewToGallery env photo st).2.prefs
        = .ok (addNewToGallery env photo st).2.photos
  ∧ (∀ res, loadSaved false (addNewToGallery env photo st).2.files
          (addNewToGallery env photo st).2.prefs = .ok res →
        res.head?.map UserPhoto.filepath
          = some (addNewToGallery env photo st).1.filepath)
  ∧ (fsRead (addNewToGallery env photo st).2.files
        (captureFileName env.nowName)).isSome = true := by
  obtain ⟨hyb, cam, blob, dir, t1, t2⟩ := env
  cases hyb with
  | true =>
    refine ⟨rfl, rfl, rfl, rfl, rfl, rfl, ?_, ?_⟩
    · intro res hres
      exact loadSavedWeb_head _ _ _ res hres
    · show (fsRead (fsWrite st.files (captureFileName t1) cam)
        (captureFileName t1)).isSome = true
      rw [fsRead_write]
      rfl
  | false =>
    refine ⟨rfl, rfl, rfl, rfl, rfl, rfl, ?_, ?_⟩
    · intro res hres
      exact loadSavedWeb_head _ _ _ res hres
    · show (fsRead (fsWrite st.files (captureFileName t1) (convertBlobToBase64 blob))
        (captureFileName t1)).isSome = true
      rw [fsRead_write]
      rfl

/-- Witness for C8 at a concrete web capture: the stored entry exists and a fresh web
load puts the new photo at index 0. -/
theorem addNewToGallery_correct_witness :
    (fsRead (addNewToGallery (CaptureEnv.mk false "" [9] "dir" 5 6)
        (CapturedPhoto.mk none (some "w")) (GalleryState.mk [] none [])).2.files
      (captureFileName 5)).isSome = true
  ∧ (∀ res, loadSaved false
        (addNewToGallery (CaptureEnv.mk false "" [9] "dir" 5 6)
          (CapturedPhoto.mk none (some "w")) (GalleryState.mk [] none [])).2.files
        (addNewToGallery (CaptureEnv.mk false "" [9] "dir" 5 6)
          (CapturedPhoto.mk none (some "w")) (GalleryState.mk [] none [])).2.prefs
        = .ok res →
      res.head?.map UserPhoto.filepath
        = some (addNewToGallery (CaptureEnv.mk false "" [9] "dir" 5 6)
            (CapturedPhoto.mk none (some "w")) (GalleryState.mk [] none [])).1.filepath) :=
  ⟨(addNewToGallery_correct (CaptureEnv.mk false "" [9] "dir" 5 6)
      (CapturedPhoto.mk none (some "w")) (GalleryState.mk [] none [])).2.2.2.2.2.2.2,
   (addNewToGallery_correct (CaptureEnv.mk false "" [9] "dir" 5 6)
      (CapturedPhoto.mk none (some "w")) (GalleryState.mk [] none [])).2.2.2.2.2.2.1⟩

/-! ## Claim C9 -/

/-- Counterexample to C9 as stated: a web capture of a three-byte blob stores the
27-character data URL string while the size field records 3, so the size does not
equal the size of the stored data. -/
theorem savePicture_size_cex :
    (savePicture (CaptureEnv.mk false "" [1, 2, 3] "" 0 0) (CapturedPhoto.mk none none)
        (captureFileName 0) []).1.size = some 3
  ∧ fsRead (savePicture (CaptureEnv.mk false "" [1, 2, 3] "" 0 0)
        (CapturedPhoto.mk none none) (captureFileName 0) []).2 (captureFileName 0)
      = some (convertBlobToBase64 [1, 2, 3])
  ∧ (convertBlobToBase64 [1, 2, 3]).length = 27
  ∧ (3 : Nat) ≠ 27 :=
  ⟨by decide, by decide, by decide, by decide⟩

/-- C9 (amended): the size field records the size of the image as measured at capture
time, which matches the stored data only in the native-shell context: on hybrid the
size is the length of the base64 string read from the camera file, the very string
written to storage; on the web the size is the byte count of the fetched blob while
the stored string is the longer base64 data URL of those bytes. -/
theorem savePicture_size (env : CaptureEnv) (photo : CapturedPhoto) (fileName : String)
    (files : FileStore) :
    (env.hybrid = true →
        (savePicture env photo fileName files).1.size = some env.cameraData.length
      ∧ fsRead (savePicture env photo fileName files).2 fileName
          = some env.cameraData)
  ∧ (env.hybrid = false →
        (savePicture env photo fileName files).1.size = some env.blob.length
      ∧ fsRead (savePicture env photo fileName files).2 fileName
          = some (convertBlobToBase64 env.blob)) := by
  obtain ⟨hyb, cam, blob, dir, t1, t2⟩ := env
  cases hyb with
  | true =>
    constructor
    · intro _
      exact ⟨rfl, fsRead_write files fileName cam⟩
    · intro h
      cases h
  | false =>
    constructor
    · intro h
      cases h
    · intro _
      exact ⟨rfl, fsRead_write files fileName (convertBlobToBase64 blob)⟩

/-- Witness for C9 at concrete captures in both contexts. -/
theorem savePicture_size_witness :
    (savePicture (CaptureEnv.mk true "abcd" [] "dir" 1 2) (CapturedPhoto.mk none none)
        "f.jpeg" []).1.size = some ("abcd" : String).length
  ∧ (savePicture (CaptureEnv.mk false "" [5, 6] "dir" 1 2) (CapturedPhoto.mk none none)
        "f.jpeg" []).1.size = some ([5, 6] : List Nat).length :=
  ⟨((savePicture_size (CaptureEnv.mk true "abcd" [] "dir" 1 2)
      (CapturedPhoto.mk none none) "f.jpeg" []).1 rfl).1,
   ((savePicture_size (CaptureEnv.mk false "" [5, 6] "dir" 1 2)
      (CapturedPhoto.mk none none) "f.jpeg" []).2 rfl).1⟩

/-! ## Claim C10 -/

/-- C10: resolving the filepath of a captured photo the way deletePhoto does (last
slash-separated segment in the hybrid context, unchanged on the web) yields exactly
the byte-storage filename under which the capture wrote the image data, and the entry
under that resolved name exists after the capture. -/
theorem capture_delete_storage_agree (env : CaptureEnv) (photo : CapturedPhoto)
    (st : GalleryState) :
    resolveToFilename env.hybrid (addNewToGallery env photo st).1.filepath
      = captureFileName env.nowName
  ∧ (fsRead (addNewToGallery env photo st).2.files
      (resolveToFilename env.hybrid (addNewToGallery env photo st).1.filepath)).isSome
      = true := by
  obtain ⟨hyb, cam, blob, dir, t1, t2⟩ := env
  cases hyb with
  | true =>
    have hres : resolveToFilename true (dir ++ "/" ++ captureFileName t1)
        = captureFileName t1 :=
      resolveToFilename_uri dir (captureFileName t1) (captureFileName_ne_slash t1)
    refine ⟨hres, ?_⟩
    show (fsRead (fsWrite st.files (captureFileName t1) cam)
      (resolveToFilename true (dir ++ "/" ++ captureFileName t1))).isSome = true
    rw [hres, fsRead_write]
    rfl
  | false =>
    have hres : resolveToFilename false (captureFileName t1) = captureFileName t1 := rfl
    refine ⟨hres, ?_⟩
    show (fsRead (fsWrite st.files (captureFileName t1) (convertBlobToBase64 blob))
      (resolveToFilename false (captureFileName t1))).isSome = true
    rw [hres, fsRead_write]
    rfl
